import Mathlib

/-!
Shallow embedding of the monokakido-python dictionary-container reader
(src/rsc.py, src/nrsc.py, src/keys.py, src/headlines.py).

Bytes and characters are modelled as natural numbers, byte buffers and
strings as `List Nat`.  Python exceptions are modelled with `Option` /
`Except Unit` (`none` / `.error ()` = an exception was raised), Python's
`None` result with `Option.none` where the source returns it as a value.
Stateful code (the single-slot block cache of `Rsc`, the reusable read
buffer of `NrscData`) is modelled by explicit state passing.  DEFLATE
decompression (`zlib.decompress`) is kept abstract as a function
parameter `zdec`; file contents are abstract functions from a file's
sequence number to its byte list.
-/

namespace MDict

/-- struct.unpack('&lt;I', data[off:off+4]) : four bytes little endian;
`none` when fewer than 4 bytes are available (struct.error). -/
def readU32LE (data : List Nat) (off : Nat) : Option Nat :=
  match data[off]?, data[off+1]?, data[off+2]?, data[off+3]? with
  | some b0, some b1, some b2, some b3 =>
      some (b0 + 256 * b1 + 65536 * b2 + 16777216 * b3)
  | _, _, _, _ => none

/-- struct.unpack_from('&lt;H', data, off) : two bytes little endian;
`none` when fewer than 2 bytes are available. -/
def readU16LE (data : List Nat) (off : Nat) : Option Nat :=
  match data[off]?, data[off+1]? with
  | some b0, some b1 => some (b0 + 256 * b1)
  | _, _ => none

/-! ## rsc.py : data model -/

/-- rsc.py IdxRecord: (item_id, map_idx), both u32. -/
structure IdxRecord where
  item_id : Nat
  map_idx : Nat
deriving DecidableEq, Repr

/-- rsc.py MapRecord: (zoffset, ioffset), both u32. -/
structure MapRecord where
  zoffset : Nat
  ioffset : Nat
deriving DecidableEq, Repr

/-- rsc.py / nrsc.py ResourceFile (the open file handle is dropped; a file
is identified by its seqnum, which the content oracle is keyed on). -/
structure ResourceFile where
  seqnum : Nat
  len : Nat
  offset : Nat
deriving DecidableEq, Repr

/-- rsc.py `file_offset(files, offset)` : linear scan over the files,
returning the first file whose [offset, offset+len) span contains the
logical offset, together with the offset local to that file.
`none` models the `raise IndexError()` (AddressOutOfRange). -/
def fileOffset : List ResourceFile → Nat → Option (ResourceFile × Nat)
  | [], _ => none
  | f :: rest, off =>
      if f.offset ≤ off ∧ off < f.offset + f.len then some (f, off - f.offset)
      else fileOffset rest off

/-- The check-and-assign loop shared by `Rsc.files` (base 1) and
`Nrsc.files` (base 0), run after sorting by seqnum: the i-th file (from
0) must have seqnum `base + i`, else construction raises; each file's
offset is set to the cumulative length of the files before it. -/
def checkAssign (base : Nat) : Nat → Nat → List ResourceFile → Option (List ResourceFile)
  | _, _, [] => some []
  | i, off, f :: rest =>
      if f.seqnum = base + i then
        (checkAssign base (i+1) (off + f.len) rest).map
          (fun tail => { f with offset := off } :: tail)
      else none

/-- Construction of the segmented file list from the parsed directory
entries (seqnum, size): build ResourceFiles, sort by seqnum (Python's
`files.sort(key=...)`, a stable sort), then check contiguity from `base`
and assign cumulative offsets.  `none` models the raised exception. -/
def buildFiles (base : Nat) (entries : List (Nat × Nat)) : Option (List ResourceFile) :=
  let files := entries.map (fun e => ({ seqnum := e.1, len := e.2, offset := 0 } : ResourceFile))
  let sorted := files.insertionSort (fun a b => a.seqnum ≤ b.seqnum)
  checkAssign base 0 0 sorted

/-- rsc.py `Rsc.files`: sequence numbers must be 1, 2, 3, ... . -/
def rscFiles (entries : List (Nat × Nat)) : Option (List ResourceFile) :=
  buildFiles 1 entries

/-- nrsc.py `Nrsc.files`: sequence numbers must be 0, 1, 2, ... . -/
def nrscFiles (entries : List (Nat × Nat)) : Option (List ResourceFile) :=
  buildFiles 0 entries

/-! ## rsc.py : sparse ID resolution (RscIndex) -/

/-- The fast-guess loop of `RscIndex.get_map_idx_by_id`:
`for guess in [id_, id_ - 1]: if 0 &lt;= guess &lt; len(idx_list) and
idx_list[guess].item_id == id_: return guess`.  Note it returns the
guessed ARRAY POSITION.  `id_ - 1` is Python int subtraction, so for
id_ = 0 the second guess is -1 and fails the `0 &lt;= guess` test. -/
def guessPrev (idxList : List IdxRecord) (id : Nat) : Option Nat :=
  match idxList[id-1]?, id with
  | some rec2, Nat.succ _ => if rec2.item_id = id then some (id-1) else none
  | _, _ => none

def guessHit (idxList : List IdxRecord) (id : Nat) : Option Nat :=
  match idxList[id]? with
  | some rec => if rec.item_id = id then some id else guessPrev idxList id
  | none => guessPrev idxList id

/-- The `while low < high` binary-search loop of
`RscIndex.get_map_idx_by_id` (a lower-bound search on item_id), written
with explicit fuel; with fuel ≥ high - low the fuel never runs out and
the fuel-0 return value is irrelevant. -/
def bsLoop (idxList : List IdxRecord) (id : Nat) : Nat → Nat → Nat → Nat
  | 0, low, _ => low
  | fuel+1, low, high =>
      if low < high then
        let mid := (low + high) / 2
        match idxList[mid]? with
        | none => low      -- unreachable: mid < high ≤ idxList.length at every call
        | some rec =>
            if rec.item_id < id then bsLoop idxList id fuel (mid+1) high
            else bsLoop idxList id fuel low mid
      else low

/-- rsc.py `RscIndex.get_map_idx_by_id`.  `idxOpt = none` is the dense
case (`self.idx is None`): the id itself is returned.  In the sparse
case: empty idx → None; fast guess (returns the guessed position);
otherwise binary search, returning the found record's map_idx field
after a range check against the map array.  Result `none` models
Python's `return None`. -/
def getMapIdxById (idxOpt : Option (List IdxRecord)) (map : List MapRecord) (id : Nat) :
    Option Nat :=
  match idxOpt with
  | none => some id
  | some idxList =>
    if idxList.isEmpty then none
    else
      match guessHit idxList id with
      | some g => some g
      | none =>
        let low := bsLoop idxList id idxList.length 0 idxList.length
        match idxList[low]? with
        | some rec =>
            if rec.item_id = id then
              (if rec.map_idx ≥ map.length then none else some rec.map_idx)
            else none
        | none => none

/-- rsc.py `RscIndex.get_by_id`: `return self.map[self.get_map_idx_by_id(id_)]`.
When the inner call returns None, Python evaluates `self.map[None]` and
raises TypeError; when it returns an index out of range (dense case),
`self.map[i]` raises IndexError.  Both exceptions are `.error ()`. -/
def rscGetById (idxOpt : Option (List IdxRecord)) (map : List MapRecord) (id : Nat) :
    Except Unit MapRecord :=
  match getMapIdxById idxOpt map id with
  | none => .error ()
  | some i =>
    match map[i]? with
    | some r => .ok r
    | none => .error ()

/-! ## rsc.py : per-block cached blob store (Rsc) -/

/-- The mutable state of an `Rsc` store: the reusable compressed buffer,
the cached decompressed block, the cached block's logical offset
(initially -1, hence `Int`) and the cached block's length. -/
structure RscState where
  zlib_buf : List Nat
  contents_buf : List Nat
  current_offset : Int
  current_len : Nat
deriving DecidableEq, Repr

/-- The initial state set up by `Rsc.__init__`. -/
def rscInit : RscState :=
  { zlib_buf := [], contents_buf := [], current_offset := -1, current_len := 0 }

/-- rsc.py `Rsc.load_contents(zoffset)`: resolve the logical offset to a
file, read a 4-byte little-endian length prefix there, read that many
bytes, decompress them and install them as the cached block.
`fc` maps a file's seqnum to its byte content, `zdec` is the abstract
`zlib.decompress`.  `none` models a raised exception (both failure
points occur before any state is mutated). -/
def loadContents (files : List ResourceFile) (fc : Nat → List Nat)
    (zdec : List Nat → List Nat) (zoffset : Nat) : Option RscState :=
  match fileOffset files zoffset with
  | none => none
  | some (f, foff) =>
    let data := fc f.seqnum
    match readU32LE data foff with
    | none => none
    | some rawLen =>
      let zbuf := (data.drop (foff + 4)).take rawLen
      let cbuf := zdec zbuf
      some { zlib_buf := zbuf, contents_buf := cbuf,
             current_offset := zoffset, current_len := cbuf.length }

/-- The tail of rsc.py `Rsc.get_by_map` after the cache is ensured: check
`ioffset + 4 > current_len` (IndexError), read the 4-byte length prefix
inside the decompressed block, return the following `length` bytes
(Python slicing clamps at the end of the buffer). -/
def extractRec (st : RscState) (ioffset : Nat) : Option (List Nat) :=
  if ioffset + 4 > st.current_len then none
  else
    match readU32LE st.contents_buf ioffset with
    | none => none
    | some length => some ((st.contents_buf.drop (ioffset + 4)).take length)

/-- rsc.py `Rsc.get_by_map(rec)`: if the cached block's offset equals
`rec.zoffset`, reuse the cache, else reload via `load_contents`.  The
result is (returned bytes or exception, state after the call, number of
`load_contents` calls performed — i.e. of decompressions). -/
def getByMap (files : List ResourceFile) (fc : Nat → List Nat)
    (zdec : List Nat → List Nat) (st : RscState) (rec : MapRecord) :
    Option (List Nat) × RscState × Nat :=
  if st.current_offset = (rec.zoffset : Int) then
    (extractRec st rec.ioffset, st, 0)
  else
    match loadContents files fc zdec rec.zoffset with
    | none => (none, st, 0)
    | some st' => (extractRec st' rec.ioffset, st', 1)

/-! ## nrsc.py : per-record blob store -/

/-- nrsc.py NrscIdxRecord: ('&lt;HHIII') = (format, fileseq, id_str_offset,
file_offset, length). -/
structure NrscIdxRecord where
  format : Nat
  fileseq : Nat
  id_str_offset : Nat
  file_offset : Nat
  length : Nat
deriving DecidableEq, Repr

/-- The mutable state of `NrscData`: the reusable read buffer (grown on
demand, never shrunk) and the unused decomp buffer. -/
structure NrscState where
  read_buf : List Nat
  decomp_buf : List Nat
deriving DecidableEq, Repr

/-- The initial state set up by `NrscData.__init__`. -/
def nrscInit : NrscState := { read_buf := [], decomp_buf := [] }

/-- nrsc.py `NrscData.get_by_nidx_rec(rec)`: look the file up by
`rec.fileseq` (position in the files list), grow (never shrink) the read
buffer to `rec.length`, `readinto` it at `rec.file_offset` — which reads
up to the FULL buffer length, keeping stale bytes past end-of-file —
then return the whole buffer raw (format 0), decompressed (format 1), or
raise (other formats, after the state was already mutated). -/
def getByNidxRec (files : List ResourceFile) (fc : Nat → List Nat)
    (zdec : List Nat → List Nat) (st : NrscState) (rec : NrscIdxRecord) :
    Option (List Nat) × NrscState :=
  match files[rec.fileseq]? with
  | none => (none, st)
  | some file =>
    let buf0 := if st.read_buf.length < rec.length then List.replicate rec.length 0
                else st.read_buf
    let content := fc file.seqnum
    let readBytes := (content.drop rec.file_offset).take buf0.length
    let buf1 := readBytes ++ buf0.drop readBytes.length
    let st' := { st with read_buf := buf1 }
    if rec.format = 0 then (some buf1, st')
    else if rec.format = 1 then (some (zdec buf1), st')
    else (none, st')

/-- Python slice/index normalization: a possibly negative index against a
sequence of length `len` (negative indices count from the end, then are
clamped into [0, len]). -/
def pyNormIdx (len : Nat) (i : Int) : Nat :=
  if i < 0 then (i + len).toNat else min i.toNat len

/-- Python `s.index(ch, start)` (start may be negative): `none` models the
ValueError when the character does not occur at or after the normalized
start position. -/
def pyIndexOfFrom (l : List Nat) (c : Nat) (start : Int) : Option Nat :=
  let s := pyNormIdx l.length start
  match (l.drop s).findIdx? (fun x => x = c) with
  | none => none
  | some k => some (s + k)

/-- Python `s[a:b]` for possibly negative bounds. -/
def pySlice (l : List Nat) (a b : Int) : List Nat :=
  (l.take (pyNormIdx l.length b)).drop (pyNormIdx l.length a)

/-- nrsc.py `NrscIndex.get_id_at(offset)`: `base = len(idx)*16 + 8`,
`relative = offset - base`; if `relative > 0` the byte before it in the
id region must be NUL (a failed or out-of-range access raises
IndexError); then scan for the NUL terminator from `relative`
(ValueError → IndexError) and return the string before it.  The id
region `ids` is a list of character codes; `idxLen` is `len(self.idx)`. -/
def getIdAt (idxLen : Nat) (ids : List Nat) (offset : Nat) : Except Unit (List Nat) :=
  let base : Int := (idxLen * 16 + 8 : Nat)
  let relative : Int := (offset : Int) - base
  if 0 < relative then
    match ids[(relative - 1).toNat]? with
    | none => .error ()
    | some c =>
      if c ≠ 0 then .error ()
      else
        match pyIndexOfFrom ids 0 relative with
        | none => .error ()
        | some e => .ok (pySlice ids relative e)
  else
    match pyIndexOfFrom ids 0 relative with
    | none => .error ()
    | some e => .ok (pySlice ids relative e)

/-- The scan loop of nrsc.py `NrscIndex.get_by_id`: try `get_id_at` on
each record; an IndexError is caught and the record skipped; the first
record whose id string equals the target is returned; `none` models the
`return None` at the end. -/
def getByIdAux (idxLen : Nat) (ids : List Nat) (id : List Nat) :
    List NrscIdxRecord → Option NrscIdxRecord
  | [] => none
  | rec :: rest =>
    match getIdAt idxLen ids rec.id_str_offset with
    | .error _ => getByIdAux idxLen ids id rest
    | .ok s => if s = id then some rec else getByIdAux idxLen ids id rest

/-- nrsc.py `NrscIndex.get_by_id(id_)`. -/
def nrscGetById (idx : List NrscIdxRecord) (ids : List Nat) (id : List Nat) :
    Option NrscIdxRecord :=
  getByIdAux idx.length ids id idx

/-! ## keys.py : key normalization and exact search -/

/-- keys.py `to_katakana`, per character: a code point in the hiragana
range ['ぁ', 'ん'] = [0x3041, 0x3093] is shifted by
`ord('ア') - ord('あ')` = 0x60; anything else passes through. -/
def toKatakanaChar (c : Nat) : Nat :=
  if 0x3041 ≤ c ∧ c ≤ 0x3093 then c + 0x60 else c

/-- keys.py `to_katakana(input_str)`: build the converted character list,
and return it if any character was converted, else the input unchanged
(the two are equal lists either way). -/
def toKatakana (s : List Nat) : List Nat :=
  let result := s.map toKatakanaChar
  let converted := s.any (fun ch => decide (0x3041 ≤ ch ∧ ch ≤ 0x3093))
  if converted then result else s

/-- Python `bytes` comparison: strict byte-lexicographic order. -/
def bytesLt : List Nat → List Nat → Bool
  | [], [] => false
  | [], _ :: _ => true
  | _ :: _, [] => false
  | a :: as, b :: bs => if a < b then true else if b < a then false else bytesLt as bs

/-- keys.py `Keys.cmp_key(target, idx)`: fetch the stored offset for
position `idx` in the prefix index (the source's `index_prefix.get(idx)`
/ `self.words` are the Rust-style accesses of the list and of the word
region), raise IndexError when fewer than `len(target) + 1` bytes remain
at that offset, compare the next `len(target)` bytes with the target; on
byte equality the result is 0 only when the following byte is the NUL
terminator, else 1; otherwise `(found > target) - (found < target)`. -/
def cmpKey (words : List Nat) (prefixIdx : List Nat) (target : List Nat) (idx : Nat) :
    Except Unit Int :=
  match prefixIdx[idx]? with
  | none => .error ()
  | some off =>
    if off + target.length + 1 > words.length then .error ()
    else
      let found_tail := words.drop off
      let found := found_tail.take target.length
      if found = target then
        .ok (if found_tail[target.length]? = some 0 then 0 else 1)
      else
        .ok ((if bytesLt target found then 1 else 0) - (if bytesLt found target then 1 else 0))

/-- The `while low <= high` loop of keys.py `Keys.search_exact`, with
explicit fuel (fuel ≥ high + 2 - low makes the fuel-0 case unreachable).
`low` starts at 0 and only grows; `high` may reach -1, hence `Int`.
`.ok none` models the `return None` (not found); `.error` a raised
exception from `cmp_key`. -/
def searchLoop (words : List Nat) (prefixIdx : List Nat) (target : List Nat) :
    Nat → Nat → Int → Except Unit (Option Nat)
  | 0, _, _ => .error ()
  | fuel+1, low, high =>
    if (low : Int) ≤ high then
      let mid := (low + high.toNat) / 2
      match cmpKey words prefixIdx target mid with
      | .error e => .error e
      | .ok cmp =>
        if cmp < 0 then searchLoop words prefixIdx target fuel (mid + 1) high
        else if 0 < cmp then searchLoop words prefixIdx target fuel low ((mid : Int) - 1)
        else .ok (some mid)
    else .ok none

/-- keys.py `Keys.search_exact(target_key)`: normalize the key with
`to_katakana`, then binary search with `low = 0`,
`high = index_prefix.len()` (note: the length itself, not length - 1).
The source returns `mid` and the page iterator at `mid`; the found
position `mid` is returned here. -/
def searchExact (words : List Nat) (prefixIdx : List Nat) (target : List Nat) :
    Except Unit (Option Nat) :=
  let t := toKatakana target
  searchLoop words prefixIdx t (prefixIdx.length + 2) 0 (prefixIdx.length : Int)

/-! ## keys.py : page-list decoding -/

/-- The body of one iteration of keys.py `Keys.get_page_iter`: read the
tag byte at `offset`, split it into `has_item = kind >> 4` and
`kind = kind & 0xf`; kind 1/2/4 reads a 1/2/3-byte big-endian page id
(other kinds leave the loop variables stale in the source and are
modelled as an error); has_item 1/2 reads a 1/2-byte big-endian item id,
any other high nibble leaves item = 0 and consumes nothing (the source
merely prints a warning for values other than 0).  Returns
(page, item, offset after the reference). -/
def readRef (data : List Nat) (off : Nat) : Option (Nat × Nat × Nat) :=
  match data[off]? with
  | none => none
  | some kindByte =>
    let hasItem := kindByte >>> 4
    let kind := kindByte % 16
    let pagePart : Option (Nat × Nat) :=
      if kind = 1 then
        match data[off+1]? with
        | some hi => some (hi, off + 2)
        | none => none
      else if kind = 2 then
        match data[off+1]?, data[off+2]? with
        | some hi, some lo => some ((hi <<< 8) ||| lo, off + 3)
        | _, _ => none
      else if kind = 4 then
        match data[off+1]?, data[off+2]?, data[off+3]? with
        | some hi, some mid, some lo => some ((hi <<< 16) ||| (mid <<< 8) ||| lo, off + 4)
        | _, _, _ => none
      else none
    match pagePart with
    | none => none
    | some (page, off2) =>
      if hasItem = 1 then
        match data[off2]? with
        | some b => some (page, b, off2 + 1)
        | none => none
      else if hasItem = 2 then
        match data[off2]?, data[off2+1]? with
        | some b0, some b1 => some (page, (b0 <<< 8) + b1, off2 + 2)
        | _, _ => none
      else some (page, 0, off2)

/-- The `for i in range(count)` loop of `Keys.get_page_iter`, collecting
the decoded (page, item) pairs. -/
def pageIterLoop (data : List Nat) : Nat → Nat → Option (List (Nat × Nat))
  | _, 0 => some []
  | off, n+1 =>
    match readRef data off with
    | none => none
    | some (page, item, off2) =>
      match pageIterLoop data off2 n with
      | none => none
      | some rest => some ((page, item) :: rest)

/-- keys.py `Keys.get_page_iter(pages_offset)`: read a 2-byte count, then
decode that many page references in sequence. -/
def getPageIter (data : List Nat) (pagesOffset : Nat) : Option (List (Nat × Nat)) :=
  match readU16LE data pagesOffset with
  | none => none
  | some count => pageIterLoop data (pagesOffset + 2) count

/-! ## Reference encoder (the byte format §3 describes, used to state the
round-trip claims about the decoder) -/

/-- A page reference with its chosen widths: page-id width `pw` ∈ {1,2,3}
bytes, item-id width `iw` ∈ {0,1,2} bytes. -/
structure PRef where
  pw : Nat
  iw : Nat
  page : Nat
  item : Nat
deriving DecidableEq, Repr

/-- Validity of a reference: legal widths, and the ids fit their widths
(an absent item id means item = 0, forced by `item < 256^0 = 1`). -/
def PRef.valid (r : PRef) : Prop :=
  (r.pw = 1 ∨ r.pw = 2 ∨ r.pw = 3) ∧ (r.iw = 0 ∨ r.iw = 1 ∨ r.iw = 2) ∧
    r.page < 256 ^ r.pw ∧ r.item < 256 ^ r.iw

instance : DecidablePred PRef.valid := fun r => by
  unfold PRef.valid; infer_instance

/-- The tag byte: low nibble 1/2/4 selects page width 1/2/3, high nibble
is the item width. -/
def PRef.tag (r : PRef) : Nat :=
  (if r.pw = 1 then 1 else if r.pw = 2 then 2 else 4) + 16 * r.iw

/-- Big-endian byte encoding of `v` in `w` bytes (w ∈ {0,1,2,3} used). -/
def beBytes (w v : Nat) : List Nat :=
  match w with
  | 0 => []
  | 1 => [v % 256]
  | 2 => [v / 256 % 256, v % 256]
  | _ => [v / 65536 % 256, v / 256 % 256, v % 256]

/-- One encoded page reference: tag byte, big-endian page id, optional
big-endian item id. -/
def encodeRef (r : PRef) : List Nat :=
  r.tag :: beBytes r.pw r.page ++ beBytes r.iw r.item

/-- A run of encoded references. -/
def encodeRefs (rs : List PRef) : List Nat :=
  (rs.map encodeRef).flatten

/-- A full encoded page list: 2-byte little-endian count, then the
references. -/
def encodePageList (rs : List PRef) : List Nat :=
  [rs.length % 256, rs.length / 256 % 256] ++ encodeRefs rs

/-- The spec's worked example for the segmented blob store: physical
files of sizes [10, 20, 30], sequentially numbered from base 1, with
their cumulative starting offsets. -/
def demoFiles : List ResourceFile :=
  [⟨1, 10, 0⟩, ⟨2, 20, 10⟩, ⟨3, 30, 30⟩]

/-! ## Helper lemmas -/

theorem toKatakanaChar_shift (c : Nat) (h1 : 0x3041 ≤ c) (h2 : c ≤ 0x3093) :
    toKatakanaChar c = c + 0x60 := by
  unfold toKatakanaChar
  rw [if_pos ⟨h1, h2⟩]

theorem toKatakanaChar_other (c : Nat) (h : ¬(0x3041 ≤ c ∧ c ≤ 0x3093)) :
    toKatakanaChar c = c := by
  unfold toKatakanaChar
  rw [if_neg h]

theorem toKatakanaChar_not_in_range (c : Nat) :
    ¬(0x3041 ≤ toKatakanaChar c ∧ toKatakanaChar c ≤ 0x3093) := by
  unfold toKatakanaChar
  split <;> omega

theorem toKatakanaChar_idem (c : Nat) :
    toKatakanaChar (toKatakanaChar c) = toKatakanaChar c := by
  have h := toKatakanaChar_not_in_range c
  exact toKatakanaChar_other _ h

theorem toKatakana_eq_map (s : List Nat) : toKatakana s = s.map toKatakanaChar := by
  by_cases h : s.any (fun ch => decide (0x3041 ≤ ch ∧ ch ≤ 0x3093)) = true
  · simp only [toKatakana, h, if_true]
  · simp only [Bool.not_eq_true] at h
    simp only [toKatakana, h, if_false]
    have hall : ∀ a ∈ s, ¬(0x3041 ≤ a ∧ a ≤ 0x3093) := by
      intro a ha
      by_contra hc
      have : s.any (fun ch => decide (0x3041 ≤ ch ∧ ch ≤ 0x3093)) = true :=
        List.any_eq_true.mpr ⟨a, ha, decide_eq_true hc⟩
      rw [h] at this
      exact Bool.false_ne_true this
    have hfix : ∀ a ∈ s, toKatakanaChar a = a := fun a ha => toKatakanaChar_other a (hall a ha)
    calc s = s.map id := by rw [List.map_id]
    _ = s.map toKatakanaChar := (List.map_congr_left (fun a ha => (hfix a ha).symm))

theorem toKatakana_idem (s : List Nat) : toKatakana (toKatakana s) = toKatakana s := by
  rw [toKatakana_eq_map s, toKatakana_eq_map (s.map toKatakanaChar), List.map_map]
  exact List.map_congr_left (fun a _ => toKatakanaChar_idem a)

theorem checkAssign_isSome_iff (base : Nat) (l : List ResourceFile) :
    ∀ (i off : Nat),
      (checkAssign base i off l).isSome = true ↔
        l.map (·.seqnum) = List.range' (base + i) l.length := by
  induction l with
  | nil =>
    intro i off
    simp [checkAssign, List.range']
  | cons f rest ih =>
    intro i off
    simp only [checkAssign, List.map_cons, List.length_cons]
    rw [List.range'_succ]
    by_cases h : f.seqnum = base + i
    · rw [if_pos h, Option.isSome_map', ih (i+1) (off + f.len)]
      constructor
      · intro hrest
        rw [h, hrest, Nat.add_assoc]
      · intro hcons
        have := (List.cons.injEq _ _ _ _).mp hcons
        rw [this.2, Nat.add_assoc]
    · rw [if_neg h]
      simp only [Option.isSome_none, Bool.false_eq_true, false_iff]
      intro hcons
      exact h ((List.cons.injEq _ _ _ _).mp hcons).1

theorem checkAssign_offsets (base : Nat) (l : List ResourceFile) :
    ∀ (i off : Nat) (out : List ResourceFile), checkAssign base i off l = some out →
      out.length = l.length ∧
      ∀ k (hk : k < out.length),
        out[k].offset = off + ((out.take k).map (·.len)).sum ∧ out[k].seqnum = base + i + k := by
  induction l with
  | nil =>
    intro i off out h
    simp only [checkAssign, Option.some.injEq] at h
    subst h
    simp
  | cons f rest ih =>
    intro i off out h
    simp only [checkAssign] at h
    by_cases hs : f.seqnum = base + i
    · rw [if_pos hs] at h
      cases hc : checkAssign base (i+1) (off + f.len) rest with
      | none =>
        rw [hc] at h
        exact absurd h (by simp)
      | some tail =>
        rw [hc] at h
        simp only [Option.map_some', Option.some.injEq] at h
        obtain ⟨hlen, htail⟩ := ih (i+1) (off + f.len) tail hc
        subst h
        refine ⟨by simp [hlen], ?_⟩
        intro k hk
        cases k with
        | zero =>
          refine ⟨by simp, ?_⟩
          simp only [List.getElem_cons_zero]
          rw [hs, Nat.add_zero]
        | succ k' =>
          have hk' : k' < tail.length := by
            simp only [List.length_cons] at hk
            omega
          obtain ⟨ho, hseq⟩ := htail k' hk'
          refine ⟨?_, ?_⟩
          · simp only [List.getElem_cons_succ, List.take_succ_cons, List.map_cons, List.sum_cons]
            rw [ho]
            omega
          · simp only [List.getElem_cons_succ]
            rw [hseq]
            omega
    · rw [if_neg hs] at h
      exact absurd h (by simp)

theorem guessPrev_spec (idxList : List IdxRecord) (id g : Nat)
    (h : guessPrev idxList id = some g) :
    ∃ hg : g < idxList.length, idxList[g].item_id = id := by
  unfold guessPrev at h
  cases hp : idxList[id-1]? with
  | none =>
    rw [hp] at h
    cases id <;> exact absurd h (by simp)
  | some rec2 =>
    rw [hp] at h
    cases id with
    | zero => exact absurd h (by simp)
    | succ n =>
      dsimp only at h
      by_cases he : rec2.item_id = n + 1
      · rw [if_pos he] at h
        injection h with h'
        obtain ⟨hlt, hval⟩ := List.getElem?_eq_some_iff.mp hp
        subst h'
        exact ⟨hlt, by rw [hval]; exact he⟩
      · rw [if_neg he] at h
        exact absurd h (by simp)

theorem guessHit_spec (idxList : List IdxRecord) (id g : Nat)
    (h : guessHit idxList id = some g) :
    ∃ hg : g < idxList.length, idxList[g].item_id = id := by
  unfold guessHit at h
  cases hq : idxList[id]? with
  | none =>
    rw [hq] at h
    exact guessPrev_spec idxList id g h
  | some rec =>
    rw [hq] at h
    dsimp only at h
    by_cases he : rec.item_id = id
    · rw [if_pos he] at h
      injection h with h'
      obtain ⟨hlt, hval⟩ := List.getElem?_eq_some_iff.mp hq
      subst h'
      exact ⟨hlt, by rw [hval]; exact he⟩
    · rw [if_neg he] at h
      exact guessPrev_spec idxList id g h

theorem bsLoop_correct (idxList : List IdxRecord) (id : Nat)
    (hsort : ∀ i (hi : i < idxList.length), ∀ j (hj : j < idxList.length),
      i < j → idxList[i].item_id < idxList[j].item_id) :
    ∀ (fuel low high : Nat), high ≤ idxList.length → low ≤ high → high - low ≤ fuel →
      (∀ k (hk : k < idxList.length), k < low → idxList[k].item_id < id) →
      (∀ k (hk : k < idxList.length), high ≤ k → ¬ idxList[k].item_id < id) →
      low ≤ bsLoop idxList id fuel low high ∧ bsLoop idxList id fuel low high ≤ high ∧
      (∀ k (hk : k < idxList.length),
        k < bsLoop idxList id fuel low high → idxList[k].item_id < id) ∧
      (∀ k (hk : k < idxList.length),
        bsLoop idxList id fuel low high ≤ k → ¬ idxList[k].item_id < id) := by
  intro fuel
  induction fuel with
  | zero =>
    intro low high hhl hlh hfuel hlow hhigh
    have heq : low = high := by omega
    subst heq
    simp only [bsLoop]
    exact ⟨le_refl _, le_refl _, hlow, fun k hk hge => hhigh k hk hge⟩
  | succ fuel ih =>
    intro low high hhl hlh hfuel hlow hhigh
    simp only [bsLoop]
    by_cases hlt : low < high
    · rw [if_pos hlt]
      have hmid1 : low ≤ (low + high) / 2 := by omega
      have hmid2 : (low + high) / 2 < high := by omega
      have hmidlen : (low + high) / 2 < idxList.length := by omega
      rw [List.getElem?_eq_getElem hmidlen]
      dsimp only
      by_cases hcmp : idxList[(low + high) / 2].item_id < id
      · rw [if_pos hcmp]
        have hlow' : ∀ k (hk : k < idxList.length),
            k < (low + high) / 2 + 1 → idxList[k].item_id < id := by
          intro k hk hklt
          rcases Nat.lt_or_ge k ((low + high) / 2) with h | h
          · exact lt_trans (hsort k hk ((low + high) / 2) hmidlen h) hcmp
          · have heq : k = (low + high) / 2 := by omega
            subst heq
            exact hcmp
        obtain ⟨ha, hb, hc, hd⟩ :=
          ih ((low + high) / 2 + 1) high hhl (by omega) (by omega) hlow' hhigh
        exact ⟨by omega, hb, hc, hd⟩
      · rw [if_neg hcmp]
        have hhigh' : ∀ k (hk : k < idxList.length),
            (low + high) / 2 ≤ k → ¬ idxList[k].item_id < id := by
          intro k hk hge
          rcases Nat.eq_or_lt_of_le hge with h | h
          · subst h
            exact hcmp
          · have hmono := hsort ((low + high) / 2) hmidlen k hk h
            omega
        obtain ⟨ha, hb, hc, hd⟩ :=
          ih low ((low + high) / 2) (by omega) (by omega) (by omega) hlow hhigh'
        exact ⟨ha, by omega, hc, hd⟩
    · rw [if_neg hlt]
      exact ⟨le_refl _, by omega, hlow, fun k hk hge => hhigh k hk (by omega)⟩

theorem fileOffset_spec (files : List ResourceFile) :
    ∀ (base off : Nat),
      (∀ i (hi : i < files.length), files[i].offset = base + ((files.take i).map (·.len)).sum) →
      base ≤ off →
      (off < base + (files.map (·.len)).sum →
        ∃ i, ∃ hi : i < files.length,
          fileOffset files off = some (files[i], off - files[i].offset) ∧
          files[i].offset ≤ off ∧ off < files[i].offset + files[i].len ∧
          (∀ j (hj : j < files.length),
            files[j].offset ≤ off → off < files[j].offset + files[j].len → j = i)) ∧
      (base + (files.map (·.len)).sum ≤ off → fileOffset files off = none) := by
  induction files with
  | nil =>
    intro base off hcum hbase
    refine ⟨?_, fun _ => rfl⟩
    intro hlt
    simp only [List.map_nil, List.sum_nil] at hlt
    omega
  | cons f rest ih =>
    intro base off hcum hbase
    have hf0 : f.offset = base := by
      have h0 := hcum 0 (by simp)
      simpa using h0
    have hrest : ∀ i (hi : i < rest.length),
        rest[i].offset = (base + f.len) + ((rest.take i).map (·.len)).sum := by
      intro i hi
      have hi1 := hcum (i+1) (by simp only [List.length_cons]; omega)
      simp only [List.getElem_cons_succ, List.take_succ_cons, List.map_cons,
        List.sum_cons] at hi1
      rw [hi1]
      omega
    have hsum : ((f :: rest).map (·.len)).sum = f.len + (rest.map (·.len)).sum := by
      simp
    constructor
    · intro hlt
      by_cases hin : off < base + f.len
      · refine ⟨0, by simp, ?_, ?_, ?_, ?_⟩
        · unfold fileOffset
          rw [if_pos ⟨by rw [hf0]; exact hbase, by rw [hf0]; exact hin⟩]
          simp
        · simp only [List.getElem_cons_zero]
          rw [hf0]
          exact hbase
        · simp only [List.getElem_cons_zero]
          rw [hf0]
          exact hin
        · intro j hj hle hlt2
          cases j with
          | zero => rfl
          | succ j' =>
            exfalso
            have hj' : j' < rest.length := by
              simp only [List.length_cons] at hj
              omega
            have := hrest j' hj'
            simp only [List.getElem_cons_succ] at hle
            rw [this] at hle
            omega
      · have hbase' : base + f.len ≤ off := by omega
        have hlt' : off < (base + f.len) + (rest.map (·.len)).sum := by
          rw [hsum] at hlt
          omega
        obtain ⟨i', hi', heq, hsp1, hsp2, huniq⟩ :=
          (ih (base + f.len) off hrest hbase').1 hlt'
        have hhead : ¬(f.offset ≤ off ∧ off < f.offset + f.len) := by
          rw [hf0]
          omega
        refine ⟨i' + 1, by simp only [List.length_cons]; omega, ?_, ?_, ?_, ?_⟩
        · unfold fileOffset
          rw [if_neg hhead]
          simpa using heq
        · simpa using hsp1
        · simpa using hsp2
        · intro j hj hle hlt2
          cases j with
          | zero =>
            exfalso
            simp only [List.getElem_cons_zero] at hle hlt2
            rw [hf0] at hlt2
            omega
          | succ j' =>
            have hj' : j' < rest.length := by
              simp only [List.length_cons] at hj
              omega
            simp only [List.getElem_cons_succ] at hle hlt2
            rw [huniq j' hj' hle hlt2]
    · intro hge
      rw [hsum] at hge
      have hhead : ¬(f.offset ≤ off ∧ off < f.offset + f.len) := by
        rw [hf0]
        omega
      unfold fileOffset
      rw [if_neg hhead]
      exact (ih (base + f.len) off hrest (by omega)).2 (by omega)

theorem loadContents_sets_offset (files : List ResourceFile) (fc : Nat → List Nat)
    (zdec : List Nat → List Nat) (z : Nat) (st' : RscState)
    (h : loadContents files fc zdec z = some st') : st'.current_offset = (z : Int) := by
  unfold loadContents at h
  split at h
  · exact absurd h (by simp)
  · dsimp only at h
    split at h
    · exact absurd h (by simp)
    · injection h with h'
      rw [← h']

theorem mul_pow_lor_eq_add (c b k : Nat) (hb : b < 2^k) : (c * 2^k) ||| b = c * 2^k + b := by
  apply Nat.eq_of_testBit_eq
  intro i
  rw [Nat.testBit_lor]
  rw [show c * 2^k + b = 2^k * c + b by ring]
  rw [Nat.testBit_mul_pow_two_add c hb i]
  have hc0 : (c * 2^k).testBit i = if i < k then false else c.testBit (i - k) := by
    have h := Nat.testBit_mul_pow_two_add c (show 0 < 2^k from Nat.two_pow_pos k) i
    rw [Nat.add_zero] at h
    rw [show 2^k * c = c * 2^k by ring] at h
    rw [h]
    by_cases hik : i < k
    · simp [hik, Nat.zero_testBit]
    · simp [hik]
  rw [hc0]
  by_cases hik : i < k
  · simp [hik]
  · have hk : k ≤ i := by omega
    have hb0 : b.testBit i = false := by
      apply Nat.testBit_lt_two_pow
      exact lt_of_lt_of_le hb (Nat.pow_le_pow_right (by norm_num) hk)
    simp [hik, hb0]

theorem decodePage2 (page : Nat) (hpage : page < 65536) :
    ((page / 256 % 256) <<< 8) ||| (page % 256) = page := by
  rw [Nat.shiftLeft_eq]
  rw [mul_pow_lor_eq_add _ _ 8 (by norm_num; omega)]
  norm_num
  omega

theorem decodePage3 (page : Nat) (hpage : page < 16777216) :
    ((page / 65536 % 256) <<< 16) ||| ((page / 256 % 256) <<< 8) ||| (page % 256) = page := by
  rw [Nat.shiftLeft_eq, Nat.shiftLeft_eq]
  rw [mul_pow_lor_eq_add (page / 65536 % 256) (page / 256 % 256 * 2^8) 16 (by norm_num; omega)]
  rw [show page / 65536 % 256 * 2^16 + page / 256 % 256 * 2^8
      = (page / 65536 % 256 * 2^8 + page / 256 % 256) * 2^8 by ring]
  rw [mul_pow_lor_eq_add _ _ 8 (by norm_num; omega)]
  norm_num
  omega

theorem getElem?_append_middle (pre l post : List Nat) (k : Nat) (hk : k < l.length) :
    (pre ++ l ++ post)[pre.length + k]? = some (l[k]) := by
  rw [List.append_assoc]
  rw [List.getElem?_append_right (by omega : pre.length ≤ pre.length + k)]
  rw [Nat.add_sub_cancel_left]
  rw [List.getElem?_append_left hk]
  exact List.getElem?_eq_getElem hk


theorem readRef_encodeRef (pre post : List Nat) (r : PRef) (hv : r.valid) :
    readRef (pre ++ encodeRef r ++ post) pre.length =
      some (r.page, r.item, pre.length + (1 + r.pw + r.iw)) := by
  obtain ⟨pw, iw, page, item⟩ := r
  obtain ⟨hpw, hiw, hpage, hitem⟩ := hv
  dsimp only at hpage hitem ⊢
  rcases hpw with rfl | rfl | rfl <;> rcases hiw with rfl | rfl | rfl <;> norm_num at hpage hitem
  · -- pw = 1, iw = 0
    have hit : item = 0 := by omega
    subst hit
    have hL : encodeRef ⟨1, 0, page, 0⟩ = [1, page % 256] := by
      simp [encodeRef, beBytes, PRef.tag]
    rw [hL]
    have e0 : (pre ++ [1, page % 256] ++ post)[pre.length + 0]? = some (1) := by
      simpa using getElem?_append_middle pre [1, page % 256] post 0 (by simp)
    have e1 : (pre ++ [1, page % 256] ++ post)[pre.length + 1]? = some (page % 256) := by
      simpa using getElem?_append_middle pre [1, page % 256] post 1 (by simp)
    have e0' : (pre ++ [1, page % 256] ++ post)[pre.length]? = some (1) := by
      simpa using e0
    unfold readRef
    rw [e0']
    dsimp only
    rw [show (1:Nat) >>> 4 = 0 from rfl, show (1:Nat) % 16 = 1 from rfl]
    rw [if_pos (rfl : (1:Nat) = 1)]
    rw [e1]
    dsimp only
    rw [if_neg (by decide : ¬(0:Nat) = 1), if_neg (by decide : ¬(0:Nat) = 2)]
    rw [Nat.mod_eq_of_lt hpage]
  · -- pw = 1, iw = 1
    have hL : encodeRef ⟨1, 1, page, item⟩ = [17, page % 256, item % 256] := by
      simp [encodeRef, beBytes, PRef.tag]
    rw [hL]
    have e0 : (pre ++ [17, page % 256, item % 256] ++ post)[pre.length + 0]? = some (17) := by
      simpa using getElem?_append_middle pre [17, page % 256, item % 256] post 0 (by simp)
    have e1 : (pre ++ [17, page % 256, item % 256] ++ post)[pre.length + 1]? = some (page % 256) := by
      simpa using getElem?_append_middle pre [17, page % 256, item % 256] post 1 (by simp)
    have e2 : (pre ++ [17, page % 256, item % 256] ++ post)[pre.length + 2]? = some (item % 256) := by
      simpa using getElem?_append_middle pre [17, page % 256, item % 256] post 2 (by simp)
    have e0' : (pre ++ [17, page % 256, item % 256] ++ post)[pre.length]? = some (17) := by
      simpa using e0
    unfold readRef
    rw [e0']
    dsimp only
    rw [show (17:Nat) >>> 4 = 1 from rfl, show (17:Nat) % 16 = 1 from rfl]
    rw [if_pos (rfl : (1:Nat) = 1)]
    rw [e1]
    dsimp only
    rw [if_pos (rfl : (1:Nat) = 1)]
    rw [e2]
    dsimp only
    rw [Nat.mod_eq_of_lt hpage, Nat.mod_eq_of_lt hitem]
  · -- pw = 1, iw = 2
    have hL : encodeRef ⟨1, 2, page, item⟩ = [33, page % 256, item / 256 % 256, item % 256] := by
      simp [encodeRef, beBytes, PRef.tag]
    rw [hL]
    have e0 : (pre ++ [33, page % 256, item / 256 % 256, item % 256] ++ post)[pre.length + 0]? = some (33) := by
      simpa using getElem?_append_middle pre [33, page % 256, item / 256 % 256, item % 256] post 0 (by simp)
    have e1 : (pre ++ [33, page % 256, item / 256 % 256, item % 256] ++ post)[pre.length + 1]? = some (page % 256) := by
      simpa using getElem?_append_middle pre [33, page % 256, item / 256 % 256, item % 256] post 1 (by simp)
    have e2 : (pre ++ [33, page % 256, item / 256 % 256, item % 256] ++ post)[pre.length + 2]? = some (item / 256 % 256) := by
      simpa using getElem?_append_middle pre [33, page % 256, item / 256 % 256, item % 256] post 2 (by simp)
    have e3 : (pre ++ [33, page % 256, item / 256 % 256, item % 256] ++ post)[pre.length + 3]? = some (item % 256) := by
      simpa using getElem?_append_middle pre [33, page % 256, item / 256 % 256, item % 256] post 3 (by simp)
    have e0' : (pre ++ [33, page % 256, item / 256 % 256, item % 256] ++ post)[pre.length]? = some (33) := by
      simpa using e0
    unfold readRef
    rw [e0']
    dsimp only
    rw [show (33:Nat) >>> 4 = 2 from rfl, show (33:Nat) % 16 = 1 from rfl]
    rw [if_pos (rfl : (1:Nat) = 1)]
    rw [e1]
    dsimp only
    rw [if_neg (by decide : ¬(2:Nat) = 1), if_pos (rfl : (2:Nat) = 2)]
    rw [e2, e3]
    dsimp only
    rw [Nat.mod_eq_of_lt hpage]
    rw [Nat.shiftLeft_eq]
    rw [show item / 256 % 256 * 2 ^ 8 + item % 256 = item by omega]
  · -- pw = 2, iw = 0
    have hit : item = 0 := by omega
    subst hit
    have hL : encodeRef ⟨2, 0, page, 0⟩ = [2, page / 256 % 256, page % 256] := by
      simp [encodeRef, beBytes, PRef.tag]
    rw [hL]
    have e0 : (pre ++ [2, page / 256 % 256, page % 256] ++ post)[pre.length + 0]? = some (2) := by
      simpa using getElem?_append_middle pre [2, page / 256 % 256, page % 256] post 0 (by simp)
    have e1 : (pre ++ [2, page / 256 % 256, page % 256] ++ post)[pre.length + 1]? = some (page / 256 % 256) := by
      simpa using getElem?_append_middle pre [2, page / 256 % 256, page % 256] post 1 (by simp)
    have e2 : (pre ++ [2, page / 256 % 256, page % 256] ++ post)[pre.length + 2]? = some (page % 256) := by
      simpa using getElem?_append_middle pre [2, page / 256 % 256, page % 256] post 2 (by simp)
    have e0' : (pre ++ [2, page / 256 % 256, page % 256] ++ post)[pre.length]? = some (2) := by
      simpa using e0
    unfold readRef
    rw [e0']
    dsimp only
    rw [show (2:Nat) >>> 4 = 0 from rfl, show (2:Nat) % 16 = 2 from rfl]
    rw [if_neg (by decide : ¬(2:Nat) = 1), if_pos (rfl : (2:Nat) = 2)]
    rw [e1, e2]
    dsimp only
    rw [if_neg (by decide : ¬(0:Nat) = 1), if_neg (by decide : ¬(0:Nat) = 2)]
    rw [decodePage2 page hpage]
  · -- pw = 2, iw = 1
    have hL : encodeRef ⟨2, 1, page, item⟩ = [18, page / 256 % 256, page % 256, item % 256] := by
      simp [encodeRef, beBytes, PRef.tag]
    rw [hL]
    have e0 : (pre ++ [18, page / 256 % 256, page % 256, item % 256] ++ post)[pre.length + 0]? = some (18) := by
      simpa using getElem?_append_middle pre [18, page / 256 % 256, page % 256, item % 256] post 0 (by simp)
    have e1 : (pre ++ [18, page / 256 % 256, page % 256, item % 256] ++ post)[pre.length + 1]? = some (page / 256 % 256) := by
      simpa using getElem?_append_middle pre [18, page / 256 % 256, page % 256, item % 256] post 1 (by simp)
    have e2 : (pre ++ [18, page / 256 % 256, page % 256, item % 256] ++ post)[pre.length + 2]? = some (page % 256) := by
      simpa using getElem?_append_middle pre [18, page / 256 % 256, page % 256, item % 256] post 2 (by simp)
    have e3 : (pre ++ [18, page / 256 % 256, page % 256, item % 256] ++ post)[pre.length + 3]? = some (item % 256) := by
      simpa using getElem?_append_middle pre [18, page / 256 % 256, page % 256, item % 256] post 3 (by simp)
    have e0' : (pre ++ [18, page / 256 % 256, page % 256, item % 256] ++ post)[pre.length]? = some (18) := by
      simpa using e0
    unfold readRef
    rw [e0']
    dsimp only
    rw [show (18:Nat) >>> 4 = 1 from rfl, show (18:Nat) % 16 = 2 from rfl]
    rw [if_neg (by decide : ¬(2:Nat) = 1), if_pos (rfl : (2:Nat) = 2)]
    rw [e1, e2]
    dsimp only
    rw [if_pos (rfl : (1:Nat) = 1)]
    rw [e3]
    dsimp only
    rw [decodePage2 page hpage, Nat.mod_eq_of_lt hitem]
  · -- pw = 2, iw = 2
    have hL : encodeRef ⟨2, 2, page, item⟩ = [34, page / 256 % 256, page % 256, item / 256 % 256, item % 256] := by
      simp [encodeRef, beBytes, PRef.tag]
    rw [hL]
    have e0 : (pre ++ [34, page / 256 % 256, page % 256, item / 256 % 256, item % 256] ++ post)[pre.length + 0]? = some (34) := by
      simpa using getElem?_append_middle pre [34, page / 256 % 256, page % 256, item / 256 % 256, item % 256] post 0 (by simp)
    have e1 : (pre ++ [34, page / 256 % 256, page % 256, item / 256 % 256, item % 256] ++ post)[pre.length + 1]? = some (page / 256 % 256) := by
      simpa using getElem?_append_middle pre [34, page / 256 % 256, page % 256, item / 256 % 256, item % 256] post 1 (by simp)
    have e2 : (pre ++ [34, page / 256 % 256, page % 256, item / 256 % 256, item % 256] ++ post)[pre.length + 2]? = some (page % 256) := by
      simpa using getElem?_append_middle pre [34, page / 256 % 256, page % 256, item / 256 % 256, item % 256] post 2 (by simp)
    have e3 : (pre ++ [34, page / 256 % 256, page % 256, item / 256 % 256, item % 256] ++ post)[pre.length + 3]? = some (item / 256 % 256) := by
      simpa using getElem?_append_middle pre [34, page / 256 % 256, page % 256, item / 256 % 256, item % 256] post 3 (by simp)
    have e4 : (pre ++ [34, page / 256 % 256, page % 256, item / 256 % 256, item % 256] ++ post)[pre.length + 4]? = some (item % 256) := by
      simpa using getElem?_append_middle pre [34, page / 256 % 256, page % 256, item / 256 % 256, item % 256] post 4 (by simp)
    have e0' : (pre ++ [34, page / 256 % 256, page % 256, item / 256 % 256, item % 256] ++ post)[pre.length]? = some (34) := by
      simpa using e0
    unfold readRef
    rw [e0']
    dsimp only
    rw [show (34:Nat) >>> 4 = 2 from rfl, show (34:Nat) % 16 = 2 from rfl]
    rw [if_neg (by decide : ¬(2:Nat) = 1), if_pos (rfl : (2:Nat) = 2)]
    rw [e1, e2]
    dsimp only
    rw [if_neg (by decide : ¬(2:Nat) = 1), if_pos (rfl : (2:Nat) = 2)]
    rw [e3, e4]
    dsimp only
    rw [decodePage2 page hpage]
    rw [Nat.shiftLeft_eq]
    rw [show item / 256 % 256 * 2 ^ 8 + item % 256 = item by omega]
  · -- pw = 3, iw = 0
    have hit : item = 0 := by omega
    subst hit
    have hL : encodeRef ⟨3, 0, page, 0⟩ = [4, page / 65536 % 256, page / 256 % 256, page % 256] := by
      simp [encodeRef, beBytes, PRef.tag]
    rw [hL]
    have e0 : (pre ++ [4, page / 65536 % 256, page / 256 % 256, page % 256] ++ post)[pre.length + 0]? = some (4) := by
      simpa using getElem?_append_middle pre [4, page / 65536 % 256, page / 256 % 256, page % 256] post 0 (by simp)
    have e1 : (pre ++ [4, page / 65536 % 256, page / 256 % 256, page % 256] ++ post)[pre.length + 1]? = some (page / 65536 % 256) := by
      simpa using getElem?_append_middle pre [4, page / 65536 % 256, page / 256 % 256, page % 256] post 1 (by simp)
    have e2 : (pre ++ [4, page / 65536 % 256, page / 256 % 256, page % 256] ++ post)[pre.length + 2]? = some (page / 256 % 256) := by
      simpa using getElem?_append_middle pre [4, page / 65536 % 256, page / 256 % 256, page % 256] post 2 (by simp)
    have e3 : (pre ++ [4, page / 65536 % 256, page / 256 % 256, page % 256] ++ post)[pre.length + 3]? = some (page % 256) := by
      simpa using getElem?_append_middle pre [4, page / 65536 % 256, page / 256 % 256, page % 256] post 3 (by simp)
    have e0' : (pre ++ [4, page / 65536 % 256, page / 256 % 256, page % 256] ++ post)[pre.length]? = some (4) := by
      simpa using e0
    unfold readRef
    rw [e0']
    dsimp only
    rw [show (4:Nat) >>> 4 = 0 from rfl, show (4:Nat) % 16 = 4 from rfl]
    rw [if_neg (by decide : ¬(4:Nat) = 1), if_neg (by decide : ¬(4:Nat) = 2), if_pos (rfl : (4:Nat) = 4)]
    rw [e1, e2, e3]
    dsimp only
    rw [if_neg (by decide : ¬(0:Nat) = 1), if_neg (by decide : ¬(0:Nat) = 2)]
    rw [decodePage3 page hpage]
  · -- pw = 3, iw = 1
    have hL : encodeRef ⟨3, 1, page, item⟩ = [20, page / 65536 % 256, page / 256 % 256, page % 256, item % 256] := by
      simp [encodeRef, beBytes, PRef.tag]
    rw [hL]
    have e0 : (pre ++ [20, page / 65536 % 256, page / 256 % 256, page % 256, item % 256] ++ post)[pre.length + 0]? = some (20) := by
      simpa using getElem?_append_middle pre [20, page / 65536 % 256, page / 256 % 256, page % 256, item % 256] post 0 (by simp)
    have e1 : (pre ++ [20, page / 65536 % 256, page / 256 % 256, page % 256, item % 256] ++ post)[pre.length + 1]? = some (page / 65536 % 256) := by
      simpa using getElem?_append_middle pre [20, page / 65536 % 256, page / 256 % 256, page % 256, item % 256] post 1 (by simp)
    have e2 : (pre ++ [20, page / 65536 % 256, page / 256 % 256, page % 256, item % 256] ++ post)[pre.length + 2]? = some (page / 256 % 256) := by
      simpa using getElem?_append_middle pre [20, page / 65536 % 256, page / 256 % 256, page % 256, item % 256] post 2 (by simp)
    have e3 : (pre ++ [20, page / 65536 % 256, page / 256 % 256, page % 256, item % 256] ++ post)[pre.length + 3]? = some (page % 256) := by
      simpa using getElem?_append_middle pre [20, page / 65536 % 256, page / 256 % 256, page % 256, item % 256] post 3 (by simp)
    have e4 : (pre ++ [20, page / 65536 % 256, page / 256 % 256, page % 256, item % 256] ++ post)[pre.length + 4]? = some (item % 256) := by
      simpa using getElem?_append_middle pre [20, page / 65536 % 256, page / 256 % 256, page % 256, item % 256] post 4 (by simp)
    have e0' : (pre ++ [20, page / 65536 % 256, page / 256 % 256, page % 256, item % 256] ++ post)[pre.length]? = some (20) := by
      simpa using e0
    unfold readRef
    rw [e0']
    dsimp only
    rw [show (20:Nat) >>> 4 = 1 from rfl, show (20:Nat) % 16 = 4 from rfl]
    rw [if_neg (by decide : ¬(4:Nat) = 1), if_neg (by decide : ¬(4:Nat) = 2), if_pos (rfl : (4:Nat) = 4)]
    rw [e1, e2, e3]
    dsimp only
    rw [if_pos (rfl : (1:Nat) = 1)]
    rw [e4]
    dsimp only
    rw [decodePage3 page hpage, Nat.mod_eq_of_lt hitem]
  · -- pw = 3, iw = 2
    have hL : encodeRef ⟨3, 2, page, item⟩ = [36, page / 65536 % 256, page / 256 % 256, page % 256, item / 256 % 256, item % 256] := by
      simp [encodeRef, beBytes, PRef.tag]
    rw [hL]
    have e0 : (pre ++ [36, page / 65536 % 256, page / 256 % 256, page % 256, item / 256 % 256, item % 256] ++ post)[pre.length + 0]? = some (36) := by
      simpa using getElem?_append_middle pre [36, page / 65536 % 256, page / 256 % 256, page % 256, item / 256 % 256, item % 256] post 0 (by simp)
    have e1 : (pre ++ [36, page / 65536 % 256, page / 256 % 256, page % 256, item / 256 % 256, item % 256] ++ post)[pre.length + 1]? = some (page / 65536 % 256) := by
      simpa using getElem?_append_middle pre [36, page / 65536 % 256, page / 256 % 256, page % 256, item / 256 % 256, item % 256] post 1 (by simp)
    have e2 : (pre ++ [36, page / 65536 % 256, page / 256 % 256, page % 256, item / 256 % 256, item % 256] ++ post)[pre.length + 2]? = some (page / 256 % 256) := by
      simpa using getElem?_append_middle pre [36, page / 65536 % 256, page / 256 % 256, page % 256, item / 256 % 256, item % 256] post 2 (by simp)
    have e3 : (pre ++ [36, page / 65536 % 256, page / 256 % 256, page % 256, item / 256 % 256, item % 256] ++ post)[pre.length + 3]? = some (page % 256) := by
      simpa using getElem?_append_middle pre [36, page / 65536 % 256, page / 256 % 256, page % 256, item / 256 % 256, item % 256] post 3 (by simp)
    have e4 : (pre ++ [36, page / 65536 % 256, page / 256 % 256, page % 256, item / 256 % 256, item % 256] ++ post)[pre.length + 4]? = some (item / 256 % 256) := by
      simpa using getElem?_append_middle pre [36, page / 65536 % 256, page / 256 % 256, page % 256, item / 256 % 256, item % 256] post 4 (by simp)
    have e5 : (pre ++ [36, page / 65536 % 256, page / 256 % 256, page % 256, item / 256 % 256, item % 256] ++ post)[pre.length + 5]? = some (item % 256) := by
      simpa using getElem?_append_middle pre [36, page / 65536 % 256, page / 256 % 256, page % 256, item / 256 % 256, item % 256] post 5 (by simp)
    have e0' : (pre ++ [36, page / 65536 % 256, page / 256 % 256, page % 256, item / 256 % 256, item % 256] ++ post)[pre.length]? = some (36) := by
      simpa using e0
    unfold readRef
    rw [e0']
    dsimp only
    rw [show (36:Nat) >>> 4 = 2 from rfl, show (36:Nat) % 16 = 4 from rfl]
    rw [if_neg (by decide : ¬(4:Nat) = 1), if_neg (by decide : ¬(4:Nat) = 2), if_pos (rfl : (4:Nat) = 4)]
    rw [e1, e2, e3]
    dsimp only
    rw [if_neg (by decide : ¬(2:Nat) = 1), if_pos (rfl : (2:Nat) = 2)]
    rw [e4, e5]
    dsimp only
    rw [decodePage3 page hpage]
    rw [Nat.shiftLeft_eq]
    rw [show item / 256 % 256 * 2 ^ 8 + item % 256 = item by omega]

theorem encodeRef_length (r : PRef) (hv : r.valid) :
    (encodeRef r).length = 1 + r.pw + r.iw := by
  obtain ⟨pw, iw, page, item⟩ := r
  obtain ⟨hpw, hiw, _, _⟩ := hv
  rcases hpw with rfl | rfl | rfl <;> rcases hiw with rfl | rfl | rfl <;>
    simp [encodeRef, beBytes, PRef.tag]

theorem pageIterLoop_encodeRefs (rs : List PRef) :
    ∀ (pre post : List Nat), (∀ r ∈ rs, r.valid) →
      pageIterLoop (pre ++ encodeRefs rs ++ post) pre.length rs.length =
        some (rs.map fun r => (r.page, r.item)) := by
  induction rs with
  | nil =>
    intro pre post hv
    simp [pageIterLoop]
  | cons r rs ih =>
    intro pre post hv
    have hvr : r.valid := hv r (by simp)
    have hvrs : ∀ x ∈ rs, x.valid := fun x hx => hv x (by simp [hx])
    have henc : encodeRefs (r :: rs) = encodeRef r ++ encodeRefs rs := by
      simp [encodeRefs]
    rw [henc]
    rw [show pre ++ (encodeRef r ++ encodeRefs rs) ++ post
        = pre ++ encodeRef r ++ (encodeRefs rs ++ post) by simp [List.append_assoc]]
    simp only [List.length_cons, pageIterLoop]
    rw [readRef_encodeRef pre (encodeRefs rs ++ post) r hvr]
    dsimp only
    rw [show pre.length + (1 + r.pw + r.iw) = (pre ++ encodeRef r).length by
      simp [encodeRef_length r hvr]]
    rw [show pre ++ encodeRef r ++ (encodeRefs rs ++ post)
        = (pre ++ encodeRef r) ++ encodeRefs rs ++ post by simp [List.append_assoc]]
    rw [ih (pre ++ encodeRef r) post hvrs]
    simp

/-! ## Claim theorems -/

/-- C3: the spec's binary-search contract says present keys resolve to
their position and absent keys yield "not found".  The key store's
`search_exact` starts the closed-interval loop at `high = len(index)`,
so on this well-formed single-key store (word region "A\0", prefix index
[0], all keys sorted) searching for the absent key "B" probes position 1
= len(index) and raises instead of returning not-found, while the
present key "A" is found at position 0. -/
theorem c3_search_exact_error_on_absent_key :
    searchExact [0x41, 0] [0] [0x42] = .error () ∧
    searchExact [0x41, 0] [0] [0x41] = .ok (some 0) := by
  constructor <;> rfl

/-- C5: the claim says every fetch returns exactly `record.length` bytes
for an uncompressed record, regardless of previous fetches.  On a store
with one 6-byte file, fetching an uncompressed record of length 4 and
then one of length 2 returns 4 bytes both times: the read buffer is
grown but never shrunk, and `readinto` fills the whole stale buffer. -/
theorem c5_read_buffer_not_shrunk :
    (getByNidxRec [⟨0, 6, 0⟩] (fun _ => [1, 2, 3, 4, 5, 6]) id nrscInit
        ⟨0, 0, 0, 0, 4⟩).1 = some [1, 2, 3, 4] ∧
    (getByNidxRec [⟨0, 6, 0⟩] (fun _ => [1, 2, 3, 4, 5, 6]) id
        (getByNidxRec [⟨0, 6, 0⟩] (fun _ => [1, 2, 3, 4, 5, 6]) id nrscInit
          ⟨0, 0, 0, 0, 4⟩).2
        ⟨0, 0, 0, 1, 2⟩).1 = some [2, 3, 4, 5] ∧
    (2 + 2 : Nat) ≠ 2 := by
  refine ⟨rfl, rfl, by omega⟩

/-- C8: the claim says both stores report "not found" for an absent id.
`RscIndex.get_by_id` feeds the inner `None` into `self.map[None]` and
raises (TypeError), here on a sparse index whose only item id is 5,
queried with 3; `NrscIndex.get_by_id` does return the not-found value
for an id absent from its id region. -/
theorem c8_rsc_absent_id_raises :
    rscGetById (some [⟨5, 0⟩]) [⟨0, 0⟩] 3 = .error () ∧
    nrscGetById [⟨0, 0, 24, 0, 0⟩] [97, 0] [98] = none := by
  constructor <;> rfl

/-- C6 counterexample: on the sparse index [(item_id 0, map_idx 5)] —
sorted ascending by item_id — looking id 0 up is answered by the fast
guess, which returns the array position 0, not the stored map-position
field 5 of the unique record whose item_id is 0. -/
theorem c6_fast_guess_differs_from_stored_map_idx :
    getMapIdxById (some [⟨0, 5⟩]) (List.replicate 6 ⟨0, 0⟩) 0 = some 0 ∧
    (⟨0, 5⟩ : IdxRecord).map_idx = 5 ∧ (0 : Nat) ≠ 5 := by
  refine ⟨rfl, rfl, by omega⟩

/-- C9: `to_katakana` shifts every character of the hiragana range
[0x3041, 0x3093] up by the fixed offset 0x60 into the katakana range and
leaves every other character unchanged; it is idempotent; and since
`search_exact` normalizes its key first, searching with the normalized
key gives the same result as searching with the raw key. -/
theorem c9_to_katakana_normalization :
    (∀ c, 0x3041 ≤ c → c ≤ 0x3093 → toKatakanaChar c = c + 0x60) ∧
    (∀ c, ¬(0x3041 ≤ c ∧ c ≤ 0x3093) → toKatakanaChar c = c) ∧
    (∀ s, toKatakana s = s.map toKatakanaChar) ∧
    (∀ s, toKatakana (toKatakana s) = toKatakana s) ∧
    (∀ words prefixIdx t,
      searchExact words prefixIdx (toKatakana t) = searchExact words prefixIdx t) := by
  refine ⟨toKatakanaChar_shift, toKatakanaChar_other, toKatakana_eq_map, toKatakana_idem, ?_⟩
  intro words prefixIdx t
  unfold searchExact
  rw [toKatakana_idem]

/-- C9 witness: the normalization facts evaluated at the concrete
characters 'あ' (0x3042, converted to 'ア' = 0x30A2) and 'A' (0x41,
unchanged), and the search-equivalence at a concrete store. -/
theorem c9_witness :
    toKatakanaChar 0x3042 = 0x3042 + 0x60 ∧ toKatakanaChar 0x41 = 0x41 ∧
    searchExact [0x41, 0] [0] (toKatakana [0x3042]) = searchExact [0x41, 0] [0] [0x3042] :=
  ⟨c9_to_katakana_normalization.1 0x3042 (by omega) (by omega),
   c9_to_katakana_normalization.2.1 0x41 (by omega),
   c9_to_katakana_normalization.2.2.2.2 [0x41, 0] [0] [0x3042]⟩

theorem getIdAt_error_of_prev_not_nul (idxLen : Nat) (ids : List Nat) (offset : Nat)
    (h1 : idxLen * 16 + 8 < offset)
    (h2 : ids[offset - (idxLen * 16 + 8) - 1]? ≠ some 0) :
    getIdAt idxLen ids offset = .error () := by
  simp only [getIdAt]
  have hrel : (0 : Int) < (offset : Int) - ((idxLen * 16 + 8 : Nat) : Int) := by omega
  rw [if_pos hrel]
  have hidx : (((offset : Int) - ((idxLen * 16 + 8 : Nat) : Int)) - 1).toNat
      = offset - (idxLen * 16 + 8) - 1 := by omega
  rw [hidx]
  cases hc : ids[offset - (idxLen * 16 + 8) - 1]? with
  | none => rfl
  | some c =>
    have hne : c ≠ 0 := by
      intro h0
      rw [h0] at hc
      exact h2 hc
    simp only [hne, ne_eq, not_false_eq_true, if_true]

theorem pyIndexOfFrom_none_of_no_nul (ids : List Nat) (rel : Int) (hrel : 0 ≤ rel)
    (h : ∀ i (hi : i < ids.length), rel.toNat ≤ i → ids[i] ≠ 0) :
    pyIndexOfFrom ids 0 rel = none := by
  simp only [pyIndexOfFrom, pyNormIdx, if_neg (by omega : ¬rel < 0)]
  rw [List.findIdx?_eq_none_iff.mpr]
  intro x hx
  obtain ⟨j, hj, hxj⟩ := List.mem_iff_getElem.mp hx
  have hjlen : min rel.toNat ids.length + j < ids.length := by
    have := hj
    simp only [List.length_drop] at this
    omega
  have hxval : x = ids[min rel.toNat ids.length + j] := by
    rw [← hxj]
    simp [List.getElem_drop]
  have hge : rel.toNat ≤ min rel.toNat ids.length + j := by omega
  have := h (min rel.toNat ids.length + j) hjlen hge
  rw [hxval]
  exact decide_eq_false this

theorem getIdAt_error_of_no_terminator (idxLen : Nat) (ids : List Nat) (offset : Nat)
    (h1 : idxLen * 16 + 8 ≤ offset)
    (h2 : ∀ i (hi : i < ids.length), offset - (idxLen * 16 + 8) ≤ i → ids[i] ≠ 0) :
    getIdAt idxLen ids offset = .error () := by
  have hfind : pyIndexOfFrom ids 0 ((offset : Int) - ((idxLen * 16 + 8 : Nat) : Int)) = none := by
    apply pyIndexOfFrom_none_of_no_nul _ _ (by omega)
    intro i hi hle
    exact h2 i hi (by omega)
  simp only [getIdAt]
  by_cases hrel : (0 : Int) < (offset : Int) - ((idxLen * 16 + 8 : Nat) : Int)
  · rw [if_pos hrel]
    cases hc : ids[(((offset : Int) - ((idxLen * 16 + 8 : Nat) : Int)) - 1).toNat]? with
    | none => rfl
    | some c =>
      dsimp only
      by_cases hcz : c ≠ 0
      · rw [if_pos hcz]
      · rw [if_neg hcz, hfind]
  · rw [if_neg hrel, hfind]

theorem getByIdAux_skips_rejected (idxLen : Nat) (ids : List Nat) (id : List Nat)
    (rec : NrscIdxRecord) (rest : List NrscIdxRecord)
    (h : getIdAt idxLen ids rec.id_str_offset = .error ()) :
    getByIdAux idxLen ids id (rec :: rest) = getByIdAux idxLen ids id rest := by
  simp only [getByIdAux, h]

theorem getByIdAux_hit (idxLen : Nat) (ids : List Nat) (id : List Nat)
    (rec : NrscIdxRecord) (rest : List NrscIdxRecord)
    (h : getIdAt idxLen ids rec.id_str_offset = .ok id) :
    getByIdAux idxLen ids id (rec :: rest) = some rec := by
  simp [getByIdAux, h]

/-- C10: `get_id_at` rejects every offset in the id region that does not
start a NUL-terminated string: if the preceding byte of the region
exists and is not NUL (or the preceding position is past the region), or
no NUL terminator occurs at or after the offset, it raises IndexError
(`.error ()`); and the `get_by_id` scan silently skips a record whose id
offset is rejected, continuing with the remaining records, while a
record whose decoded id matches is returned. -/
theorem c10_get_id_at_rejects_bad_offsets :
    (∀ (idxLen : Nat) (ids : List Nat) (offset : Nat), idxLen * 16 + 8 < offset →
      ids[offset - (idxLen * 16 + 8) - 1]? ≠ some 0 →
      getIdAt idxLen ids offset = .error ()) ∧
    (∀ (idxLen : Nat) (ids : List Nat) (offset : Nat), idxLen * 16 + 8 ≤ offset →
      (∀ i (hi : i < ids.length), offset - (idxLen * 16 + 8) ≤ i → ids[i] ≠ 0) →
      getIdAt idxLen ids offset = .error ()) ∧
    (∀ (idxLen : Nat) (ids id : List Nat) (rec : NrscIdxRecord) (rest : List NrscIdxRecord),
      getIdAt idxLen ids rec.id_str_offset = .error () →
      getByIdAux idxLen ids id (rec :: rest) = getByIdAux idxLen ids id rest) ∧
    (∀ (idxLen : Nat) (ids id : List Nat) (rec : NrscIdxRecord) (rest : List NrscIdxRecord),
      getIdAt idxLen ids rec.id_str_offset = .ok id →
      getByIdAux idxLen ids id (rec :: rest) = some rec) :=
  ⟨getIdAt_error_of_prev_not_nul, getIdAt_error_of_no_terminator,
   getByIdAux_skips_rejected, getByIdAux_hit⟩

/-- C10 witness: on the id region "a\0bc" (base 8): offset 11 has the
non-NUL preceding byte 98; offset 10 has no terminator after it; a
record pointing at the rejected offset 11 is skipped by the scan; the
record pointing at offset 8 (the string "a") is found. -/
theorem c10_witness :
    getIdAt 0 [97, 0, 98, 99] 11 = .error () ∧
    getIdAt 0 [97, 0, 98, 99] 10 = .error () ∧
    getByIdAux 0 [97, 0, 98, 99] [97] [⟨0, 0, 11, 0, 0⟩, ⟨0, 0, 8, 0, 0⟩]
      = getByIdAux 0 [97, 0, 98, 99] [97] [⟨0, 0, 8, 0, 0⟩] ∧
    getByIdAux 0 [97, 0, 98, 99] [97] [⟨0, 0, 8, 0, 0⟩] = some ⟨0, 0, 8, 0, 0⟩ :=
  ⟨c10_get_id_at_rejects_bad_offsets.1 0 [97, 0, 98, 99] 11 (by omega) (by decide),
   c10_get_id_at_rejects_bad_offsets.2.1 0 [97, 0, 98, 99] 10 (by omega) (by decide),
   c10_get_id_at_rejects_bad_offsets.2.2.1 0 [97, 0, 98, 99] [97] ⟨0, 0, 11, 0, 0⟩
     [⟨0, 0, 8, 0, 0⟩] (by rfl),
   c10_get_id_at_rejects_bad_offsets.2.2.2 0 [97, 0, 98, 99] [97] ⟨0, 0, 8, 0, 0⟩ [] (by rfl)⟩

/-- C2: the single-slot block cache of `Rsc.get_by_map`.  (i) A fetch on
a record whose block offset equals the cached block's offset reuses the
cached decompressed buffer: no load, no decompression (count 0), state
unchanged.  (ii) A fetch on a different block offset performs exactly
one `load_contents` (count 1: 4-byte length prefix read at the block
offset, block decompressed) and replaces the cache slot with that block.
(iii) In a run of three fetches where the first two share a block offset
not currently cached and the third uses another: the first two fetches
perform exactly one decompression in total (1 then 0), and the third
performs a second one, evicting the first block. -/
theorem c2_single_slot_block_cache :
    (∀ (files : List ResourceFile) (fc : Nat → List Nat) (zdec : List Nat → List Nat)
       (st : RscState) (rec : MapRecord), st.current_offset = (rec.zoffset : Int) →
      getByMap files fc zdec st rec = (extractRec st rec.ioffset, st, 0)) ∧
    (∀ (files : List ResourceFile) (fc : Nat → List Nat) (zdec : List Nat → List Nat)
       (st : RscState) (rec : MapRecord) (st' : RscState),
      st.current_offset ≠ (rec.zoffset : Int) →
      loadContents files fc zdec rec.zoffset = some st' →
      getByMap files fc zdec st rec = (extractRec st' rec.ioffset, st', 1) ∧
        st'.current_offset = (rec.zoffset : Int)) ∧
    (∀ (files : List ResourceFile) (fc : Nat → List Nat) (zdec : List Nat → List Nat)
       (st : RscState) (r1 r2 r3 : MapRecord) (s1 s3 : RscState),
      st.current_offset ≠ (r1.zoffset : Int) →
      r2.zoffset = r1.zoffset → r3.zoffset ≠ r1.zoffset →
      loadContents files fc zdec r1.zoffset = some s1 →
      loadContents files fc zdec r3.zoffset = some s3 →
      (getByMap files fc zdec st r1).2.2 = 1 ∧
      (getByMap files fc zdec st r1).2.1 = s1 ∧
      (getByMap files fc zdec s1 r2).2.2 = 0 ∧
      (getByMap files fc zdec s1 r2).2.1 = s1 ∧
      (getByMap files fc zdec st r1).2.2 + (getByMap files fc zdec s1 r2).2.2 = 1 ∧
      (getByMap files fc zdec s1 r3).2.2 = 1 ∧
      (getByMap files fc zdec s1 r3).2.1 = s3 ∧
      s3.current_offset = (r3.zoffset : Int)) := by
  refine ⟨?_, ?_, ?_⟩
  · intro files fc zdec st rec h
    unfold getByMap
    rw [if_pos h]
  · intro files fc zdec st rec st' h hload
    constructor
    · unfold getByMap
      rw [if_neg h, hload]
    · exact loadContents_sets_offset files fc zdec rec.zoffset st' hload
  · intro files fc zdec st r1 r2 r3 s1 s3 h1 h21 h31 hload1 hload3
    have hs1 : s1.current_offset = (r1.zoffset : Int) :=
      loadContents_sets_offset files fc zdec r1.zoffset s1 hload1
    have hfetch1 : getByMap files fc zdec st r1 = (extractRec s1 r1.ioffset, s1, 1) := by
      unfold getByMap
      rw [if_neg h1, hload1]
    have hs1r2 : s1.current_offset = (r2.zoffset : Int) := by rw [hs1, h21]
    have hfetch2 : getByMap files fc zdec s1 r2 = (extractRec s1 r2.ioffset, s1, 0) := by
      unfold getByMap
      rw [if_pos hs1r2]
    have hs1r3 : s1.current_offset ≠ (r3.zoffset : Int) := by
      rw [hs1]
      intro hcontra
      exact h31 (by exact_mod_cast hcontra.symm)
    have hfetch3 : getByMap files fc zdec s1 r3 = (extractRec s3 r3.ioffset, s3, 1) := by
      unfold getByMap
      rw [if_neg hs1r3, hload3]
    refine ⟨by rw [hfetch1], by rw [hfetch1], by rw [hfetch2], by rw [hfetch2],
      by rw [hfetch1, hfetch2]; rfl, by rw [hfetch3], by rw [hfetch3],
      loadContents_sets_offset files fc zdec r3.zoffset s3 hload3⟩

/-- C2 witness: a concrete store with one 100-byte file containing two
length-prefixed blocks at logical offsets 0 and 10, `zdec` instantiated
with the identity, run through the fetch-fetch-fetch scenario from the
initial state (cached offset -1). -/
theorem c2_witness :
    (getByMap [⟨1, 100, 0⟩] (fun _ => [6, 0, 0, 0, 2, 0, 0, 0, 5, 6, 5, 0, 0, 0, 1, 0, 0, 0, 8])
        id rscInit ⟨0, 0⟩).2.2 = 1 ∧
    (getByMap [⟨1, 100, 0⟩] (fun _ => [6, 0, 0, 0, 2, 0, 0, 0, 5, 6, 5, 0, 0, 0, 1, 0, 0, 0, 8])
        id rscInit ⟨0, 0⟩).2.1 = ⟨[2, 0, 0, 0, 5, 6], [2, 0, 0, 0, 5, 6], 0, 6⟩ ∧
    (getByMap [⟨1, 100, 0⟩] (fun _ => [6, 0, 0, 0, 2, 0, 0, 0, 5, 6, 5, 0, 0, 0, 1, 0, 0, 0, 8])
        id ⟨[2, 0, 0, 0, 5, 6], [2, 0, 0, 0, 5, 6], 0, 6⟩ ⟨0, 2⟩).2.2 = 0 ∧
    (getByMap [⟨1, 100, 0⟩] (fun _ => [6, 0, 0, 0, 2, 0, 0, 0, 5, 6, 5, 0, 0, 0, 1, 0, 0, 0, 8])
        id ⟨[2, 0, 0, 0, 5, 6], [2, 0, 0, 0, 5, 6], 0, 6⟩ ⟨0, 2⟩).2.1
      = ⟨[2, 0, 0, 0, 5, 6], [2, 0, 0, 0, 5, 6], 0, 6⟩ ∧
    (getByMap [⟨1, 100, 0⟩] (fun _ => [6, 0, 0, 0, 2, 0, 0, 0, 5, 6, 5, 0, 0, 0, 1, 0, 0, 0, 8])
        id rscInit ⟨0, 0⟩).2.2 +
      (getByMap [⟨1, 100, 0⟩] (fun _ => [6, 0, 0, 0, 2, 0, 0, 0, 5, 6, 5, 0, 0, 0, 1, 0, 0, 0, 8])
        id ⟨[2, 0, 0, 0, 5, 6], [2, 0, 0, 0, 5, 6], 0, 6⟩ ⟨0, 2⟩).2.2 = 1 ∧
    (getByMap [⟨1, 100, 0⟩] (fun _ => [6, 0, 0, 0, 2, 0, 0, 0, 5, 6, 5, 0, 0, 0, 1, 0, 0, 0, 8])
        id ⟨[2, 0, 0, 0, 5, 6], [2, 0, 0, 0, 5, 6], 0, 6⟩ ⟨10, 0⟩).2.2 = 1 ∧
    (getByMap [⟨1, 100, 0⟩] (fun _ => [6, 0, 0, 0, 2, 0, 0, 0, 5, 6, 5, 0, 0, 0, 1, 0, 0, 0, 8])
        id ⟨[2, 0, 0, 0, 5, 6], [2, 0, 0, 0, 5, 6], 0, 6⟩ ⟨10, 0⟩).2.1
      = ⟨[1, 0, 0, 0, 8], [1, 0, 0, 0, 8], 10, 5⟩ ∧
    (⟨[1, 0, 0, 0, 8], [1, 0, 0, 0, 8], 10, 5⟩ : RscState).current_offset = ((10 : Nat) : Int) :=
  c2_single_slot_block_cache.2.2 [⟨1, 100, 0⟩]
    (fun _ => [6, 0, 0, 0, 2, 0, 0, 0, 5, 6, 5, 0, 0, 0, 1, 0, 0, 0, 8]) id rscInit
    ⟨0, 0⟩ ⟨0, 2⟩ ⟨10, 0⟩ ⟨[2, 0, 0, 0, 5, 6], [2, 0, 0, 0, 5, 6], 0, 6⟩
    ⟨[1, 0, 0, 0, 8], [1, 0, 0, 0, 8], 10, 5⟩ (by decide) rfl (by decide) rfl rfl

/-- C7: construction of a segmented blob store succeeds exactly when the
sequence numbers of the physical files, in sorted order, are the
contiguous range of length n starting at the format's base (1 for rsc,
0 for nrsc); on success the files carry cumulative starting offsets
(each file's offset is the sum of the lengths of the files sorted before
it) and seqnum base + position. -/
theorem c7_contiguous_sequence_numbers :
    (∀ entries : List (Nat × Nat),
      (rscFiles entries).isSome = true ↔
        ((entries.map
            (fun e => ({ seqnum := e.1, len := e.2, offset := 0 } : ResourceFile))).insertionSort
              (fun a b => a.seqnum ≤ b.seqnum)).map (·.seqnum)
          = List.range' 1 entries.length) ∧
    (∀ entries : List (Nat × Nat),
      (nrscFiles entries).isSome = true ↔
        ((entries.map
            (fun e => ({ seqnum := e.1, len := e.2, offset := 0 } : ResourceFile))).insertionSort
              (fun a b => a.seqnum ≤ b.seqnum)).map (·.seqnum)
          = List.range' 0 entries.length) ∧
    (∀ (base : Nat) (entries : List (Nat × Nat)) (out : List ResourceFile),
      buildFiles base entries = some out →
      out.length = entries.length ∧
      ∀ k (hk : k < out.length),
        out[k].offset = ((out.take k).map (·.len)).sum ∧ out[k].seqnum = base + k) := by
  have hlen : ∀ entries : List (Nat × Nat),
      ((entries.map
          (fun e => ({ seqnum := e.1, len := e.2, offset := 0 } : ResourceFile))).insertionSort
            (fun a b => a.seqnum ≤ b.seqnum)).length = entries.length := by
    intro entries
    rw [(List.perm_insertionSort _ _).length_eq, List.length_map]
  refine ⟨?_, ?_, ?_⟩
  · intro entries
    unfold rscFiles buildFiles
    rw [checkAssign_isSome_iff, hlen entries]
  · intro entries
    unfold nrscFiles buildFiles
    rw [checkAssign_isSome_iff, hlen entries]
  · intro base entries out h
    unfold buildFiles at h
    obtain ⟨hl, hk⟩ := checkAssign_offsets base _ 0 0 out h
    refine ⟨by rw [hl, hlen entries], ?_⟩
    intro k hkk
    obtain ⟨ho, hs⟩ := hk k hkk
    exact ⟨by rw [ho]; omega, by rw [hs]; omega⟩

/-- C7 witness: the spec's [10, 20, 30] example.  The rsc entries
(2, 20), (1, 10), (3, 30) sort to seqnums [1, 2, 3] and construction
succeeds with cumulative offsets (the third file starts at 10 + 20);
dropping the middle file leaves seqnums [1, 3], not the range [1, 2],
and construction fails. -/
theorem c7_witness :
    (rscFiles [(2, 20), (1, 10), (3, 30)]).isSome = true ∧
    (∀ k (hk : k < ([⟨1, 10, 0⟩, ⟨2, 20, 10⟩, ⟨3, 30, 30⟩] : List ResourceFile).length),
      ([⟨1, 10, 0⟩, ⟨2, 20, 10⟩, ⟨3, 30, 30⟩] : List ResourceFile)[k].offset
        = ((([⟨1, 10, 0⟩, ⟨2, 20, 10⟩, ⟨3, 30, 30⟩] : List ResourceFile).take k).map (·.len)).sum ∧
      ([⟨1, 10, 0⟩, ⟨2, 20, 10⟩, ⟨3, 30, 30⟩] : List ResourceFile)[k].seqnum = 1 + k) ∧
    rscFiles [(1, 10), (3, 30)] = none :=
  ⟨(c7_contiguous_sequence_numbers.1 [(2, 20), (1, 10), (3, 30)]).mpr (by decide),
   (c7_contiguous_sequence_numbers.2.2 1 [(2, 20), (1, 10), (3, 30)]
      [⟨1, 10, 0⟩, ⟨2, 20, 10⟩, ⟨3, 30, 30⟩] (by decide)).2,
   Option.not_isSome_iff_eq_none.mp (fun hsome => by
     have := (c7_contiguous_sequence_numbers.1 [(1, 10), (3, 30)]).mp hsome
     exact absurd this (by decide))⟩

/-- C1: over any file list with cumulative starting offsets (each file's
offset equals the sum of the lengths of the files before it),
`file_offset` resolves every logical offset below the total size to the
unique file whose span contains it, paired with the offset local to that
file, and fails (IndexError) for every logical offset at or beyond the
total size; on the spec's [10, 20, 30] example, offset 25 resolves to
the second file at local offset 15 and offset 60 fails. -/
theorem c1_file_offset_resolution :
    (∀ files : List ResourceFile,
      (∀ i (hi : i < files.length),
        files[i].offset = ((files.take i).map (·.len)).sum) →
      (∀ off, off < (files.map (·.len)).sum →
        ∃ i, ∃ hi : i < files.length,
          fileOffset files off = some (files[i], off - files[i].offset) ∧
          files[i].offset ≤ off ∧ off < files[i].offset + files[i].len ∧
          (∀ j (hj : j < files.length),
            files[j].offset ≤ off → off < files[j].offset + files[j].len → j = i)) ∧
      (∀ off, (files.map (·.len)).sum ≤ off → fileOffset files off = none)) ∧
    fileOffset demoFiles 25 = some (⟨2, 20, 10⟩, 15) ∧
    fileOffset demoFiles 60 = none := by
  refine ⟨?_, by rfl, by rfl⟩
  intro files hcum
  have hcum' : ∀ i (hi : i < files.length),
      files[i].offset = 0 + ((files.take i).map (·.len)).sum := by
    intro i hi
    rw [hcum i hi]
    omega
  constructor
  · intro off hlt
    exact (fileOffset_spec files 0 off hcum' (Nat.zero_le off)).1 (by omega)
  · intro off hge
    exact (fileOffset_spec files 0 off hcum' (Nat.zero_le off)).2 (by omega)

/-- C6 (amended): over a sparse index sorted strictly ascending by
item_id IN WHICH EVERY RECORD'S MAP-POSITION FIELD EQUALS ITS ARRAY
POSITION (the invariant `get_by_idx` checks) and whose length does not
exceed the map array's, `get_map_idx_by_id` returns, for every present
id, the map-position field stored in the unique record whose item_id
equals the id — whether the lookup is answered by the fast guess (which
returns the array position) or by the fallback binary search (which
returns the stored field).  Without the capitalized hypothesis the two
paths disagree (see the counterexample). -/
theorem c6_resolver_agreement_under_invariant
    (idxList : List IdxRecord) (map : List MapRecord) (id p : Nat)
    (hsort : ∀ i (hi : i < idxList.length), ∀ j (hj : j < idxList.length),
      i < j → idxList[i].item_id < idxList[j].item_id)
    (hpos : ∀ i (hi : i < idxList.length), idxList[i].map_idx = i)
    (hlen : idxList.length ≤ map.length)
    (hp : p < idxList.length) (hid : idxList[p].item_id = id) :
    getMapIdxById (some idxList) map id = some (idxList[p].map_idx) := by
  have huniq : ∀ k (hk : k < idxList.length), idxList[k].item_id = id → k = p := by
    intro k hk hkid
    rcases lt_trichotomy k p with h | h | h
    · have := hsort k hk p hp h
      omega
    · exact h
    · have := hsort p hp k hk h
      omega
  have hnemp : ¬(idxList.isEmpty = true) := by
    cases idxList with
    | nil => simp at hp
    | cons a l => simp
  unfold getMapIdxById
  dsimp only
  rw [if_neg hnemp]
  cases hg : guessHit idxList id with
  | some g =>
    obtain ⟨hglen, hgid⟩ := guessHit_spec idxList id g hg
    dsimp only
    rw [huniq g hglen hgid, hpos p hp]
  | none =>
    dsimp only
    obtain ⟨hl1, hl2, hl3, hl4⟩ := bsLoop_correct idxList id hsort idxList.length 0
      idxList.length (le_refl _) (Nat.zero_le _) (by omega)
      (fun k hk h => absurd h (by omega))
      (fun k hk h => absurd hk (by omega))
    have hrp : bsLoop idxList id idxList.length 0 idxList.length = p := by
      have h1 : ¬ p < bsLoop idxList id idxList.length 0 idxList.length := by
        intro hc
        have := hl3 p hp hc
        omega
      have h2 : ¬ bsLoop idxList id idxList.length 0 idxList.length < p := by
        intro hc
        have hrlen : bsLoop idxList id idxList.length 0 idxList.length < idxList.length := by
          omega
        have hnotlt := hl4 _ hrlen (le_refl _)
        have := hsort _ hrlen p hp hc
        omega
      omega
    rw [hrp, List.getElem?_eq_getElem hp]
    dsimp only
    rw [if_pos hid, if_neg (show ¬ idxList[p].map_idx ≥ map.length by rw [hpos p hp]; omega)]

/-- C6 witness: the amended statement on the concrete sorted index
[(3, 0), (7, 1)] with map positions equal to array positions, looking
up the present id 7 (answered by the binary-search fallback, since the
fast guesses 7 and 6 are out of range). -/
theorem c6_witness :
    getMapIdxById (some [⟨3, 0⟩, ⟨7, 1⟩]) [⟨0, 0⟩, ⟨0, 0⟩] 7
      = some (([⟨3, 0⟩, ⟨7, 1⟩] : List IdxRecord)[1].map_idx) :=
  c6_resolver_agreement_under_invariant [⟨3, 0⟩, ⟨7, 1⟩] [⟨0, 0⟩, ⟨0, 0⟩] 7 1
    (by decide) (by decide) (by decide) (by decide) (by decide)

/-- C1 witness: the general resolution statement applied to the concrete
[10, 20, 30] store at logical offsets 25 (inside the second file) and
60 (one past the total size). -/
theorem c1_witness :
    (∃ i, ∃ hi : i < demoFiles.length,
      fileOffset demoFiles 25 = some (demoFiles[i], 25 - demoFiles[i].offset) ∧
      demoFiles[i].offset ≤ 25 ∧ 25 < demoFiles[i].offset + demoFiles[i].len ∧
      (∀ j (hj : j < demoFiles.length),
        demoFiles[j].offset ≤ 25 → 25 < demoFiles[j].offset + demoFiles[j].len → j = i)) ∧
    fileOffset demoFiles 60 = none :=
  ⟨(c1_file_offset_resolution.1 demoFiles (by decide)).1 25 (by decide),
   (c1_file_offset_resolution.1 demoFiles (by decide)).2 60 (by decide)⟩

/-- C4: the page-list decoder.  (i) One encoded Page Reference — a tag
byte whose low nibble (1/2/4) selects a 1/2/3-byte big-endian page id
and whose high nibble selects a 0/1/2-byte big-endian item id (item id 0
when absent) — decodes, at any position, to its (page, item) pair while
consuming exactly 1 + page-width + item-width bytes.  (ii) A 2-byte
little-endian count followed by that many encoded references decodes to
exactly that list of (page-id, item-id) pairs in sequence. -/
theorem c4_page_list_decoder :
    (∀ (pre post : List Nat) (r : PRef), r.valid →
      readRef (pre ++ encodeRef r ++ post) pre.length =
        some (r.page, r.item, pre.length + (1 + r.pw + r.iw))) ∧
    (∀ (pre post : List Nat) (rs : List PRef), (∀ r ∈ rs, r.valid) → rs.length < 65536 →
      getPageIter (pre ++ encodePageList rs ++ post) pre.length =
        some (rs.map fun r => (r.page, r.item))) := by
  constructor
  · intro pre post r hv
    exact readRef_encodeRef pre post r hv
  · intro pre post rs hv hcount
    rw [show encodePageList rs
        = [rs.length % 256, rs.length / 256 % 256] ++ encodeRefs rs from rfl]
    unfold getPageIter
    have e0 : (pre ++ ([rs.length % 256, rs.length / 256 % 256] ++ encodeRefs rs)
        ++ post)[pre.length]? = some (rs.length % 256) := by
      have h := getElem?_append_middle pre
        ([rs.length % 256, rs.length / 256 % 256] ++ encodeRefs rs) post 0 (by simp)
      simpa using h
    have e1 : (pre ++ ([rs.length % 256, rs.length / 256 % 256] ++ encodeRefs rs)
        ++ post)[pre.length + 1]? = some (rs.length / 256 % 256) := by
      have h := getElem?_append_middle pre
        ([rs.length % 256, rs.length / 256 % 256] ++ encodeRefs rs) post 1 (by simp)
      simpa using h
    unfold readU16LE
    rw [e0, e1]
    dsimp only
    rw [show rs.length % 256 + 256 * (rs.length / 256 % 256) = rs.length by omega]
    rw [show pre ++ ([rs.length % 256, rs.length / 256 % 256] ++ encodeRefs rs) ++ post
        = (pre ++ [rs.length % 256, rs.length / 256 % 256]) ++ encodeRefs rs ++ post by
      simp [List.append_assoc]]
    rw [show pre.length + 2 = (pre ++ [rs.length % 256, rs.length / 256 % 256]).length by simp]
    exact pageIterLoop_encodeRefs rs (pre ++ [rs.length % 256, rs.length / 256 % 256]) post hv

/-- C4 witness: one 3-byte-page/2-byte-item reference decoded mid-buffer
consuming 6 bytes, and a full two-reference page list (a 2-byte-page
reference with a 1-byte item, then a 1-byte-page reference with no item)
decoded after a 2-byte prefix. -/
theorem c4_witness :
    readRef ([9] ++ encodeRef ⟨3, 2, 70000, 300⟩ ++ [7]) ([9] : List Nat).length
      = some (70000, 300, ([9] : List Nat).length + (1 + 3 + 2)) ∧
    getPageIter (([9, 9] : List Nat) ++ encodePageList [⟨2, 1, 4660, 7⟩, ⟨1, 0, 9, 0⟩] ++ [])
        ([9, 9] : List Nat).length
      = some ([(4660, 7), (9, 0)]) :=
  ⟨c4_page_list_decoder.1 [9] [7] ⟨3, 2, 70000, 300⟩ (by decide),
   c4_page_list_decoder.2 [9, 9] [] [⟨2, 1, 4660, 7⟩, ⟨1, 0, 9, 0⟩] (by decide) (by decide)⟩

end MDict
